import Mathlib

/-!
Verification development for the DIVA 0x order-book service
(`src/services/orderbook_service.ts`).

Shallow embedding conventions:

* `BigNumber` values (the bignumber.js arbitrary-precision decimals used by
  `@0x/utils`) are modelled as `ℚ`.  Addition, subtraction, multiplication
  and comparison of BigNumbers are exact, so they map to the field
  operations on `ℚ`.  The `@0x/utils` package configures
  `DECIMAL_PLACES: 78`, so `BigNumber.div` returns the quotient rounded to
  78 decimal places with the default rounding mode `ROUND_HALF_UP` (half
  away from zero).  This is modelled by `bnDiv` below.  Division by zero
  yields `NaN` in bignumber.js; it is modelled as `0` here, and every
  theorem that touches a division carries positivity hypotheses for the
  divisor, matching the repository's data (order amounts are positive).
* JavaScript exceptions (e.g. calling `.gt` on `undefined` after an
  out-of-range array index) are modelled by `Option`: `none` is a thrown
  `TypeError`, `some` a normal return.
* Addresses and tokens are `String`s; `toLowerCase()` is `String.toLower`.
-/

attribute [local semireducible] Rat.mul Rat.add Rat.sub Rat.inv

set_option maxRecDepth 100000

namespace DivaOrderbook

/-- `10 ^ 78`, the scale of the configured `DECIMAL_PLACES: 78` of the
`BigNumber` class used throughout the service. -/
def E78 : ℚ := 10 ^ 78

/-- Rounding of a rational to 78 decimal places, half away from zero:
bignumber.js `ROUND_HALF_UP` at the configured `DECIMAL_PLACES: 78`. -/
def bnRound78 (q : ℚ) : ℚ :=
  if q < 0 then -((⌊-q * E78 + 1 / 2⌋ : ℚ) / E78) else (⌊q * E78 + 1 / 2⌋ : ℚ) / E78

/-- `BigNumber.div`: the exact quotient rounded to 78 decimal places
(half away from zero).  bignumber.js returns `NaN` for division by zero;
that case is mapped to `0` and excluded by hypotheses wherever it matters. -/
def bnDiv (x y : ℚ) : ℚ :=
  if y = 0 then 0 else bnRound78 (x / y)

/-- JavaScript `toLowerCase()` on the ASCII hex strings used as addresses;
extensionally equal to `String.toLower`, written via `List.map` so that it
reduces structurally. -/
def toLowerCase (s : String) : String := ⟨s.data.map Char.toLower⟩

/-- The null (open/unrestricted) address from `../constants`. -/
def NULL_ADDRESS : String := "0x0000000000000000000000000000000000000000"

/-- Modelled from the spec: the designated governance address
(`DIVA_GOVERNANCE_ADDRESS` lives in `../constants`, outside the provided
sources).  Only its identity matters to the control flow, never its value. -/
def DIVA_GOVERNANCE_ADDRESS : String := "0xDivaGovernanceAddress"

/-- The signed limit order (`order.order` of an `SRAOrder`): addresses are
strings, amounts are `BigNumber`s (here `ℚ`), `expiry` is a Unix timestamp
in seconds. -/
structure LimitOrderV4 where
  maker : String
  taker : String
  makerToken : String
  takerToken : String
  makerAmount : ℚ
  takerAmount : ℚ
  takerTokenFeeAmount : ℚ
  feeRecipient : String
  expiry : ℤ
deriving DecidableEq

/-- The order metadata attached by the 0x API.  Only
`remainingFillableTakerAmount` is read or written by the service code under
verification; the remaining metadata fields (hash, state, timestamps) are
never consulted and are omitted. -/
structure SRAOrderMetaData where
  remainingFillableTakerAmount : ℚ
deriving DecidableEq

/-- An annotated order: the signed order plus its metadata. -/
structure SRAOrder where
  order : LimitOrderV4
  metaData : SRAOrderMetaData
deriving DecidableEq

/-- Return type of `getFillableOrder`: the order with updated metadata and
the (possibly mutated) balances array. -/
structure FillableOrderType where
  extendedOrder : SRAOrder
  minOfBalancesOrAllowances : List ℚ
deriving DecidableEq

/-- The query object of `getPricesAsync` / the synthetic request built by
`getOrderBookAsync`.  `takerTokenFee` and `threshold` are JavaScript
numbers (`-1` = unconstrained fee; `0` = no configured threshold). -/
structure OrderbookPriceRequest where
  page : ℕ
  perPage : ℕ
  graphUrl : String
  createdBy : String
  taker : String
  feeRecipient : String
  takerTokenFee : ℚ
  threshold : ℚ
deriving DecidableEq

/-- `filterOrder` (orderbook_service.ts lines 68–105).  Sequential checks,
first rejection wins.  The expected fee `takerAmount * (takerTokenFee /
100000)` is computed in JavaScript as a floating-point division whose value
is then read back as a decimal; it is modelled as the exact rational
`takerTokenFee / 100000`, which coincides with the decimal read-back for
the fee units arising in practice. -/
def filterOrder (order : SRAOrder) (req : OrderbookPriceRequest) : Bool :=
  let takerTokenFeeAmountExpected : ℚ := order.order.takerAmount * (req.takerTokenFee / 100000)
  if req.takerTokenFee ≠ -1 ∧
      order.order.taker = NULL_ADDRESS ∧
      order.order.feeRecipient = toLowerCase DIVA_GOVERNANCE_ADDRESS ∧
      (order.order.takerTokenFeeAmount ≤ takerTokenFeeAmountExpected - 1 ∨
        takerTokenFeeAmountExpected + 1 ≤ order.order.takerTokenFeeAmount) then false
  else if req.takerTokenFee ≠ -1 ∧
      (order.order.takerTokenFeeAmount ≤ takerTokenFeeAmountExpected - 1 ∨
        takerTokenFeeAmountExpected + 1 ≤ order.order.takerTokenFeeAmount) then false
  else if req.taker ≠ NULL_ADDRESS ∧ req.taker ≠ toLowerCase order.order.taker then false
  else if req.feeRecipient ≠ NULL_ADDRESS ∧ toLowerCase order.order.feeRecipient ≠ req.feeRecipient then false
  else if (req.threshold ≠ 0 ∧ order.metaData.remainingFillableTakerAmount ≤ req.threshold) ∨
      order.metaData.remainingFillableTakerAmount ≤ 100 then false
  else true

/-- Whether position `index` of the parallel `makers`/`makerTokens` arrays
matches the given (maker, makerToken) pair, case-insensitively — the
condition of the `makers.map` index scan in `getFillableOrder`
(lines 174–179). -/
def makerMatches (makers makerTokens : List String) (maker makerToken : String)
    (index : ℕ) : Bool :=
  match makers[index]?, makerTokens[index]? with
  | some m, some mt => decide (toLowerCase m = toLowerCase maker ∧ toLowerCase mt = toLowerCase makerToken)
  | _, _ => false

/-- The `makerIndex` computed by `getFillableOrder` (lines 171–179): the
scan assigns `makerIndex = index` at every match, so the final value is the
*last* matching index, or `none` (JavaScript `-1`) when there is none. -/
def findMakerIndex (makers makerTokens : List String) (maker makerToken : String) :
    Option ℕ :=
  (List.range makers.length).foldl
    (fun makerIndex index =>
      if makerMatches makers makerTokens maker makerToken index then some index
      else makerIndex)
    none

/-- `remainingFillableMakerAmount` (lines 168–170): the maker-side amount
implied by the order's current remaining taker-side size, before any
clipping: `makerAmount * remainingFillableTakerAmount / takerAmount`. -/
def impliedMakerAmount (order : SRAOrder) : ℚ :=
  bnDiv (order.order.makerAmount * order.metaData.remainingFillableTakerAmount)
    order.order.takerAmount

/-- `getFillableOrder` (lines 160–229).  A missing (maker, makerToken) pair
leaves `makerIndex = -1`, so `minOfBalancesOrAllowances[makerIndex]` is
`undefined` and the subsequent `.gt(0)` throws a `TypeError`; both that and
an out-of-range index are modelled as `none`. -/
def getFillableOrder (makers makerTokens : List String)
    (minOfBalancesOrAllowances : List ℚ) (order : SRAOrder) :
    Option FillableOrderType :=
  let remainingFillableMakerAmount := impliedMakerAmount order
  match findMakerIndex makers makerTokens order.order.maker order.order.makerToken with
  | none => none
  | some makerIndex =>
    match minOfBalancesOrAllowances[makerIndex]? with
    | none => none
    | some remainingMakerMinOfBalancesOrAllowances =>
      if 0 < remainingMakerMinOfBalancesOrAllowances then
        let remainingFillableTakerAmount :=
          if remainingMakerMinOfBalancesOrAllowances < remainingFillableMakerAmount then
            bnDiv (remainingMakerMinOfBalancesOrAllowances * order.order.takerAmount)
              order.order.makerAmount
          else order.metaData.remainingFillableTakerAmount
        some { extendedOrder :=
                 { order := order.order
                   metaData := { remainingFillableTakerAmount := remainingFillableTakerAmount } }
               minOfBalancesOrAllowances :=
                 minOfBalancesOrAllowances.set makerIndex
                   (remainingMakerMinOfBalancesOrAllowances - remainingFillableMakerAmount) }
      else
        some { extendedOrder :=
                 { order := order.order
                   metaData := { remainingFillableTakerAmount := 0 } }
               minOfBalancesOrAllowances := minOfBalancesOrAllowances }

/-- The bid/ask loops of `getOrderBookAsync` (lines 303–335): fold
`getFillableOrder` over the ordered list, thread the mutated balances, and
push the *original* `order` whenever the updated `extendedOrder` passes
`filterOrder`.  A thrown `TypeError` (`none`) aborts the whole request. -/
def processOrders (makers makerTokens : List String) (req : OrderbookPriceRequest) :
    List SRAOrder → List ℚ → Option (List SRAOrder × List ℚ)
  | [], minOfBalancesOrAllowances => some ([], minOfBalancesOrAllowances)
  | order :: rest, minOfBalancesOrAllowances =>
    match getFillableOrder makers makerTokens minOfBalancesOrAllowances order with
    | none => none
    | some fillableOrder =>
      match processOrders makers makerTokens req rest fillableOrder.minOfBalancesOrAllowances with
      | none => none
      | some (result, finalBalances) =>
        some ((if filterOrder fillableOrder.extendedOrder req then order :: result else result),
          finalBalances)

/-- The best-bid / best-ask `while` loops of `getPricesAsync`
(lines 454–496): scan the ranked list, thread the mutated balances, and
stop at the first order whose updated `extendedOrder` passes `filterOrder`;
the emitted record (`getBidOrAskFormat(pools[i].bids[count])`) is built
from the *original* order, so its `remainingFillableTakerAmount` is the
pre-fold one. -/
def scanBest (makers makerTokens : List String) (req : OrderbookPriceRequest) :
    List SRAOrder → List ℚ → Option (Option SRAOrder × List ℚ)
  | [], minOfBalancesOrAllowances => some (none, minOfBalancesOrAllowances)
  | order :: rest, minOfBalancesOrAllowances =>
    match getFillableOrder makers makerTokens minOfBalancesOrAllowances order with
    | none => none
    | some fillableOrder =>
      if filterOrder fillableOrder.extendedOrder req then
        some (some order, fillableOrder.minOfBalancesOrAllowances)
      else scanBest makers makerTokens req rest fillableOrder.minOfBalancesOrAllowances

/-- The synthetic request of `getOrderBookAsync` (lines 290–299):
unconstrained taker, fee recipient and fee, threshold 0. -/
def bookRequest (page perPage : ℕ) : OrderbookPriceRequest :=
  { page := page, perPage := perPage, graphUrl := "", createdBy := ""
    taker := NULL_ADDRESS, feeRecipient := NULL_ADDRESS
    takerTokenFee := -1, threshold := 0 }

/-- Modelled from the spec: `paginationUtils.paginate`
(`../utils/pagination_utils` is outside the provided sources).  §8:
25 items, page = 2, perPage = 10 → items 11–20. -/
def paginate {α : Type} (records : List α) (page perPage : ℕ) : List α :=
  (records.drop ((page - 1) * perPage)).take perPage

/-- The pure core of `getOrderBookAsync` (lines 266–343), after the order
fetch and the balance-checker call: build the maker/makerToken arrays
(bids first, then asks), fold the bids, continue with the mutated balances
into the ask fold, and paginate both result lists. -/
def getOrderBookCore (bidApiOrders askApiOrders : List SRAOrder)
    (minOfBalancesOrAllowances : List ℚ) (page perPage : ℕ) :
    Option (List SRAOrder × List SRAOrder) :=
  let makers := bidApiOrders.map (fun o => o.order.maker) ++
    askApiOrders.map (fun o => o.order.maker)
  let makerTokens := bidApiOrders.map (fun o => o.order.makerToken) ++
    askApiOrders.map (fun o => o.order.makerToken)
  let req := bookRequest page perPage
  match processOrders makers makerTokens req bidApiOrders minOfBalancesOrAllowances with
  | none => none
  | some (resultBids, balancesAfterBids) =>
    match processOrders makers makerTokens req askApiOrders balancesAfterBids with
    | none => none
    | some (resultAsks, _) =>
      some (paginate resultBids page perPage, paginate resultAsks page perPage)

/-- Modelled from the spec: `orderUtils.groupByFreshness`
(`../utils/order_utils` is outside the provided sources).  §4.1: partition
into (fresh, expired) where an order is expired iff
`expiry ≤ now + buffer`; `now` is the current Unix time in seconds. -/
def groupByFreshness (orders : List SRAOrder) (now buffer : ℤ) :
    List SRAOrder × List SRAOrder :=
  (orders.filter (fun o => decide (now + buffer < o.order.expiry)),
   orders.filter (fun o => decide (o.order.expiry ≤ now + buffer)))

/-- The expiry filter of `getOrdersAsync` (lines 551–556): the query keeps
exactly the orders with `expiry ≥ minExpiryTime` where
`minExpiryTime = ⌊Date.now() / 1000⌋ + SRA_ORDER_EXPIRATION_BUFFER_SECONDS`
(`MoreThanOrEqual` is inclusive). -/
def ordersAsyncRetains (nowMs : ℕ) (buffer : ℤ) (expiry : ℤ) : Bool :=
  decide (((nowMs / 1000 : ℕ) : ℤ) + buffer ≤ expiry)

/-- One step of the no-clipping side condition: either the order's
(maker, makerToken) entry is absent or non-positive, or the pre-clip
implied maker amount fits into the available entry. -/
def stepNoClip (makers makerTokens : List String) (minOfBalancesOrAllowances : List ℚ)
    (order : SRAOrder) : Bool :=
  match findMakerIndex makers makerTokens order.order.maker order.order.makerToken with
  | none => true
  | some makerIndex =>
    match minOfBalancesOrAllowances[makerIndex]? with
    | none => true
    | some available => decide (available ≤ 0) || decide (impliedMakerAmount order ≤ available)

/-- The no-clipping side condition along a whole fold: at every step the
implied maker amount of the current order fits into its available entry
(threading the balances exactly as the folds do). -/
def noClipFold (makers makerTokens : List String) :
    List SRAOrder → List ℚ → Bool
  | [], _ => true
  | order :: rest, minOfBalancesOrAllowances =>
    stepNoClip makers makerTokens minOfBalancesOrAllowances order &&
    match getFillableOrder makers makerTokens minOfBalancesOrAllowances order with
    | none => true
    | some fillableOrder =>
      noClipFold makers makerTokens rest fillableOrder.minOfBalancesOrAllowances

/-! ### Concrete fixtures used by witnesses and counterexamples -/

/-- A concrete order fixture: open taker, zero fee, fee recipient distinct
from the governance address, expiry 3600. -/
def testOrder (maker makerToken : String) (makerAmount takerAmount remaining : ℚ) :
    SRAOrder :=
  { order := { maker := maker, taker := NULL_ADDRESS, makerToken := makerToken
               takerToken := "0xbase", makerAmount := makerAmount
               takerAmount := takerAmount, takerTokenFeeAmount := 0
               feeRecipient := "0xfeerecipient", expiry := 3600 }
    metaData := { remainingFillableTakerAmount := remaining } }

/-- A concrete order fixture with a taker-token fee, for the fee-tolerance
checks. -/
def feeOrder (takerAmount feeAmount : ℚ) : SRAOrder :=
  { order := { maker := "m", taker := NULL_ADDRESS, makerToken := "t"
               takerToken := "0xbase", makerAmount := takerAmount
               takerAmount := takerAmount, takerTokenFeeAmount := feeAmount
               feeRecipient := "0xfeerecipient", expiry := 3600 }
    metaData := { remainingFillableTakerAmount := 1000 } }

/-- A concrete price request constraining only the fee: one fee unit
(0.001%), no taker/feeRecipient constraint, threshold 0. -/
def feeRequest : OrderbookPriceRequest :=
  { page := 1, perPage := 20, graphUrl := "", createdBy := ""
    taker := NULL_ADDRESS, feeRecipient := NULL_ADDRESS
    takerTokenFee := 1, threshold := 0 }

/-- An order expiring exactly at `now + buffer` for `now = 0` s and
`buffer = 60` s. -/
def boundaryOrder : SRAOrder :=
  { order := { maker := "0xm", taker := NULL_ADDRESS, makerToken := "0xt"
               takerToken := "0xbase", makerAmount := 1, takerAmount := 1
               takerTokenFeeAmount := 0, feeRecipient := "0xfeerecipient", expiry := 60 }
    metaData := { remainingFillableTakerAmount := 1000 } }

/-! ### Arithmetic facts about the BigNumber embedding -/

theorem E78_pos : (0 : ℚ) < E78 := by
  unfold E78; positivity

theorem bnRound78_of_nonneg (q : ℚ) (h : 0 ≤ q) :
    bnRound78 q = (⌊q * E78 + 1 / 2⌋ : ℚ) / E78 := by
  unfold bnRound78
  rw [if_neg (not_lt.mpr h)]

theorem bnDiv_of_pos (x y : ℚ) (hy : 0 < y) (hx : 0 ≤ x) :
    bnDiv x y = (⌊x / y * E78 + 1 / 2⌋ : ℚ) / E78 := by
  unfold bnDiv
  rw [if_neg (ne_of_gt hy), bnRound78_of_nonneg _ (div_nonneg hx hy.le)]

theorem bnDiv_nonneg (x y : ℚ) (hx : 0 ≤ x) (hy : 0 ≤ y) : 0 ≤ bnDiv x y := by
  rcases eq_or_lt_of_le hy with h | h
  · unfold bnDiv
    rw [if_pos h.symm]
  · rw [bnDiv_of_pos x y h hx]
    refine div_nonneg ?_ E78_pos.le
    have h0 : (0 : ℤ) ≤ ⌊x / y * E78 + 1 / 2⌋ := by
      rw [Int.floor_nonneg]
      have : 0 ≤ x / y * E78 := mul_nonneg (div_nonneg hx h.le) E78_pos.le
      linarith
    exact_mod_cast h0

theorem bnDiv_le_int (x y : ℚ) (k : ℤ) (hy : 0 < y) (hx : 0 ≤ x)
    (h : x / y ≤ (k : ℚ)) : bnDiv x y ≤ (k : ℚ) := by
  rw [bnDiv_of_pos x y hy hx, div_le_iff₀ E78_pos]
  have hfl : ⌊x / y * E78 + 1 / 2⌋ < k * 10 ^ 78 + 1 := by
    apply Int.floor_lt.mpr
    push_cast
    have hmul : x / y * E78 ≤ (k : ℚ) * E78 := mul_le_mul_of_nonneg_right h E78_pos.le
    unfold E78 at hmul ⊢
    linarith
  have hle : ⌊x / y * E78 + 1 / 2⌋ ≤ k * 10 ^ 78 := Int.lt_add_one_iff.mp hfl
  have hcast : ((k * 10 ^ 78 : ℤ) : ℚ) = (k : ℚ) * E78 := by
    unfold E78; push_cast; ring
  rw [← hcast]
  exact_mod_cast hle

theorem bnDiv_scaled_err (x y : ℚ) (hy : 0 < y) (hx : 0 ≤ x) :
    |bnDiv x y * E78 - x / y * E78| ≤ 1 / 2 := by
  rw [bnDiv_of_pos x y hy hx, div_mul_cancel₀ _ (ne_of_gt E78_pos), abs_le]
  have h1 := Int.lt_floor_add_one (x / y * E78 + 1 / 2)
  have h2 := Int.floor_le (x / y * E78 + 1 / 2)
  constructor <;> linarith

theorem abs_bnDiv_sub_le (x y : ℚ) (hy : 0 < y) (hx : 0 ≤ x) :
    |bnDiv x y - x / y| ≤ 1 / (2 * E78) := by
  have hE := E78_pos
  have key := bnDiv_scaled_err x y hy hx
  have heq : bnDiv x y * E78 - x / y * E78 = (bnDiv x y - x / y) * E78 := by ring
  rw [heq, abs_mul, abs_of_pos hE] at key
  have h2E : (0 : ℚ) < 2 * E78 := by linarith
  rw [le_div_iff₀ h2E]
  calc |bnDiv x y - x / y| * (2 * E78) = |bnDiv x y - x / y| * E78 * 2 := by ring
    _ ≤ (1 / 2) * 2 := by linarith
    _ = 1 := by norm_num

theorem den_one_intCast (q : ℚ) (h : q.den = 1) : ((q.num : ℚ)) = q :=
  (Rat.den_eq_one_iff q).mp h

/-! ### The index scan: last-match characterization -/

theorem lastIdx_spec (p : ℕ → Bool) :
    ∀ n i, (List.range n).foldl
        (fun acc index => if p index then some index else acc) none = some i →
      p i = true ∧ i < n ∧ ∀ j, i < j → j < n → p j = false := by
  intro n
  induction n with
  | zero => intro i h; simp at h
  | succ n ih =>
    intro i h
    rw [List.range_succ, List.foldl_append] at h
    simp only [List.foldl_cons, List.foldl_nil] at h
    by_cases hp : p n = true
    · rw [if_pos hp] at h
      obtain rfl : n = i := by injection h
      exact ⟨hp, Nat.lt_succ_self n, fun j h1 h2 => absurd h2 (by omega)⟩
    · rw [if_neg hp] at h
      obtain ⟨hpi, hin, hafter⟩ := ih i h
      refine ⟨hpi, Nat.lt_succ_of_lt hin, fun j h1 h2 => ?_⟩
      rcases Nat.lt_succ_iff_lt_or_eq.mp h2 with h3 | h3
      · exact hafter j h1 h3
      · subst h3; exact eq_false_of_ne_true hp

theorem lastIdx_none (p : ℕ → Bool) :
    ∀ n, (∀ j, j < n → p j = false) →
      (List.range n).foldl
        (fun acc index => if p index then some index else acc) none = none := by
  intro n
  induction n with
  | zero => intro _; simp
  | succ n ih =>
    intro h
    rw [List.range_succ, List.foldl_append]
    simp only [List.foldl_cons, List.foldl_nil]
    rw [if_neg (by simp [h n (Nat.lt_succ_self n)]), ih (fun j hj => h j (Nat.lt_succ_of_lt hj))]

theorem makerMatches_of_le_length (makers makerTokens : List String)
    (maker makerToken : String) (j : ℕ) (h : makers.length ≤ j) :
    makerMatches makers makerTokens maker makerToken j = false := by
  unfold makerMatches
  rw [List.getElem?_eq_none h]

theorem findMakerIndex_last (makers makerTokens : List String)
    (maker makerToken : String) (i : ℕ)
    (h : findMakerIndex makers makerTokens maker makerToken = some i) :
    makerMatches makers makerTokens maker makerToken i = true ∧
      ∀ j, i < j → makerMatches makers makerTokens maker makerToken j = false := by
  obtain ⟨hpi, _, hafter⟩ := lastIdx_spec _ _ _ h
  refine ⟨hpi, fun j hij => ?_⟩
  by_cases hj : j < makers.length
  · exact hafter j hij hj
  · exact makerMatches_of_le_length makers makerTokens maker makerToken j (by omega)

theorem findMakerIndex_eq_none (makers makerTokens : List String)
    (maker makerToken : String)
    (h : ∀ j, j < makers.length → makerMatches makers makerTokens maker makerToken j = false) :
    findMakerIndex makers makerTokens maker makerToken = none :=
  lastIdx_none _ _ h

/-! ### Structure of `getFillableOrder` -/

theorem getFillableOrder_eval (makers makerTokens : List String) (bal : List ℚ)
    (order : SRAOrder) (i : ℕ) (a : ℚ)
    (hidx : findMakerIndex makers makerTokens order.order.maker order.order.makerToken = some i)
    (ha : bal[i]? = some a) :
    getFillableOrder makers makerTokens bal order =
      (if 0 < a then
        some { extendedOrder :=
                 { order := order.order
                   metaData := { remainingFillableTakerAmount :=
                     (if a < impliedMakerAmount order then
                       bnDiv (a * order.order.takerAmount) order.order.makerAmount
                     else order.metaData.remainingFillableTakerAmount) } }
               minOfBalancesOrAllowances := bal.set i (a - impliedMakerAmount order) }
      else
        some { extendedOrder :=
                 { order := order.order
                   metaData := { remainingFillableTakerAmount := 0 } }
               minOfBalancesOrAllowances := bal }) := by
  unfold getFillableOrder
  simp only [hidx, ha]

theorem getFillableOrder_none_of_no_index (makers makerTokens : List String)
    (bal : List ℚ) (order : SRAOrder)
    (hidx : findMakerIndex makers makerTokens order.order.maker order.order.makerToken = none) :
    getFillableOrder makers makerTokens bal order = none := by
  unfold getFillableOrder
  rw [hidx]

theorem getFillableOrder_none_of_no_entry (makers makerTokens : List String)
    (bal : List ℚ) (order : SRAOrder) (i : ℕ)
    (hidx : findMakerIndex makers makerTokens order.order.maker order.order.makerToken = some i)
    (ha : bal[i]? = none) :
    getFillableOrder makers makerTokens bal order = none := by
  unfold getFillableOrder
  simp only [hidx, ha]

theorem getFillableOrder_balances (makers makerTokens : List String) (bal : List ℚ)
    (order : SRAOrder) (fo : FillableOrderType)
    (h : getFillableOrder makers makerTokens bal order = some fo) :
    ∃ i a,
      findMakerIndex makers makerTokens order.order.maker order.order.makerToken = some i ∧
      bal[i]? = some a ∧
      ((0 < a ∧ fo.minOfBalancesOrAllowances = bal.set i (a - impliedMakerAmount order)) ∨
        (a ≤ 0 ∧ fo.minOfBalancesOrAllowances = bal)) := by
  rcases hidx : findMakerIndex makers makerTokens order.order.maker order.order.makerToken with
    _ | i
  · rw [getFillableOrder_none_of_no_index makers makerTokens bal order hidx] at h
    cases h
  · rcases ha : bal[i]? with _ | a
    · rw [getFillableOrder_none_of_no_entry makers makerTokens bal order i hidx ha] at h
      cases h
    · rw [getFillableOrder_eval makers makerTokens bal order i a hidx ha] at h
      refine ⟨i, a, rfl, ha, ?_⟩
      by_cases hA : 0 < a
      · rw [if_pos hA] at h
        left
        refine ⟨hA, ?_⟩
        rw [← Option.some.inj h]
      · rw [if_neg hA] at h
        right
        refine ⟨le_of_not_lt hA, ?_⟩
        rw [← Option.some.inj h]

/-! ### Fold-level helper lemmas -/

theorem stepNoClip_implies (makers makerTokens : List String) (bal : List ℚ)
    (order : SRAOrder) (i : ℕ) (a : ℚ)
    (hstep : stepNoClip makers makerTokens bal order = true)
    (hidx : findMakerIndex makers makerTokens order.order.maker order.order.makerToken = some i)
    (ha : bal[i]? = some a) (hA : 0 < a) :
    impliedMakerAmount order ≤ a := by
  unfold stepNoClip at hstep
  simp only [hidx, ha, Bool.or_eq_true, decide_eq_true_eq] at hstep
  rcases hstep with h | h
  · linarith
  · exact h

theorem step_preserves_nonneg (makers makerTokens : List String) (bal : List ℚ)
    (order : SRAOrder) (fo : FillableOrderType)
    (h : getFillableOrder makers makerTokens bal order = some fo)
    (hstep : stepNoClip makers makerTokens bal order = true)
    (h0 : ∀ x ∈ bal, 0 ≤ x) :
    ∀ x ∈ fo.minOfBalancesOrAllowances, 0 ≤ x := by
  obtain ⟨i, a, hidx, ha, hcase⟩ := getFillableOrder_balances _ _ _ _ _ h
  rcases hcase with ⟨hA, heq⟩ | ⟨_, heq⟩
  · intro x hx
    rw [heq] at hx
    rcases List.mem_or_eq_of_mem_set hx with hx' | rfl
    · exact h0 x hx'
    · have himp := stepNoClip_implies makers makerTokens bal order i a hstep hidx ha hA
      linarith
  · intro x hx
    rw [heq] at hx
    exact h0 x hx

theorem processOrders_nonneg (makers makerTokens : List String)
    (req : OrderbookPriceRequest) :
    ∀ (orders : List SRAOrder) (bal : List ℚ) (res : List SRAOrder) (bal2 : List ℚ),
      (∀ x ∈ bal, 0 ≤ x) → noClipFold makers makerTokens orders bal = true →
      processOrders makers makerTokens req orders bal = some (res, bal2) →
      ∀ x ∈ bal2, 0 ≤ x := by
  intro orders
  induction orders with
  | nil =>
    intro bal res bal2 h0 _ h
    unfold processOrders at h
    simp only [Option.some.injEq, Prod.mk.injEq] at h
    obtain ⟨-, rfl⟩ := h
    exact h0
  | cons o rest ih =>
    intro bal res bal2 h0 hnc h
    unfold processOrders at h
    unfold noClipFold at hnc
    cases hFO : getFillableOrder makers makerTokens bal o with
    | none => simp only [hFO] at h; cases h
    | some fo =>
      simp only [hFO] at h hnc
      rw [Bool.and_eq_true] at hnc
      obtain ⟨hstep, hrest⟩ := hnc
      cases hPR : processOrders makers makerTokens req rest fo.minOfBalancesOrAllowances with
      | none => simp only [hPR] at h; cases h
      | some p =>
        obtain ⟨res', bal2'⟩ := p
        simp only [hPR, Option.some.injEq, Prod.mk.injEq] at h
        obtain ⟨-, rfl⟩ := h
        exact ih fo.minOfBalancesOrAllowances res' bal2'
          (step_preserves_nonneg makers makerTokens bal o fo hFO hstep h0) hrest hPR

theorem scanBest_nonneg (makers makerTokens : List String)
    (req : OrderbookPriceRequest) :
    ∀ (orders : List SRAOrder) (bal : List ℚ) (best : Option SRAOrder) (bal2 : List ℚ),
      (∀ x ∈ bal, 0 ≤ x) → noClipFold makers makerTokens orders bal = true →
      scanBest makers makerTokens req orders bal = some (best, bal2) →
      ∀ x ∈ bal2, 0 ≤ x := by
  intro orders
  induction orders with
  | nil =>
    intro bal best bal2 h0 _ h
    unfold scanBest at h
    simp only [Option.some.injEq, Prod.mk.injEq] at h
    obtain ⟨-, rfl⟩ := h
    exact h0
  | cons o rest ih =>
    intro bal best bal2 h0 hnc h
    unfold scanBest at h
    unfold noClipFold at hnc
    cases hFO : getFillableOrder makers makerTokens bal o with
    | none => simp only [hFO] at h; cases h
    | some fo =>
      simp only [hFO] at h hnc
      rw [Bool.and_eq_true] at hnc
      obtain ⟨hstep, hrest⟩ := hnc
      have hstepn := step_preserves_nonneg makers makerTokens bal o fo hFO hstep h0
      by_cases hfil : filterOrder fo.extendedOrder req
      · rw [if_pos hfil] at h
        simp only [Option.some.injEq, Prod.mk.injEq] at h
        obtain ⟨-, rfl⟩ := h
        exact hstepn
      · rw [if_neg hfil] at h
        exact ih fo.minOfBalancesOrAllowances best bal2 hstepn hrest h

theorem processOrders_sublist (makers makerTokens : List String)
    (req : OrderbookPriceRequest) :
    ∀ (orders : List SRAOrder) (bal : List ℚ) (res : List SRAOrder) (bal2 : List ℚ),
      processOrders makers makerTokens req orders bal = some (res, bal2) →
      res.Sublist orders := by
  intro orders
  induction orders with
  | nil =>
    intro bal res bal2 h
    unfold processOrders at h
    simp only [Option.some.injEq, Prod.mk.injEq] at h
    obtain ⟨h1, -⟩ := h
    rw [← h1]
  | cons o rest ih =>
    intro bal res bal2 h
    unfold processOrders at h
    cases hFO : getFillableOrder makers makerTokens bal o with
    | none => simp only [hFO] at h; cases h
    | some fo =>
      simp only [hFO] at h
      cases hPR : processOrders makers makerTokens req rest fo.minOfBalancesOrAllowances with
      | none => simp only [hPR] at h; cases h
      | some p =>
        obtain ⟨res', bal2'⟩ := p
        simp only [hPR, Option.some.injEq, Prod.mk.injEq] at h
        obtain ⟨h1, -⟩ := h
        rw [← h1]
        by_cases hfil : filterOrder fo.extendedOrder req
        · rw [if_pos hfil]
          exact (ih fo.minOfBalancesOrAllowances res' bal2' hPR).cons₂ o
        · rw [if_neg hfil]
          exact (ih fo.minOfBalancesOrAllowances res' bal2' hPR).cons o

theorem scanBest_mem (makers makerTokens : List String)
    (req : OrderbookPriceRequest) :
    ∀ (orders : List SRAOrder) (bal : List ℚ) (best : SRAOrder) (bal2 : List ℚ),
      scanBest makers makerTokens req orders bal = some (some best, bal2) →
      best ∈ orders := by
  intro orders
  induction orders with
  | nil =>
    intro bal best bal2 h
    unfold scanBest at h
    simp only [Option.some.injEq, Prod.mk.injEq] at h
    obtain ⟨h1, -⟩ := h
    cases h1
  | cons o rest ih =>
    intro bal best bal2 h
    unfold scanBest at h
    cases hFO : getFillableOrder makers makerTokens bal o with
    | none => simp only [hFO] at h; cases h
    | some fo =>
      simp only [hFO] at h
      by_cases hfil : filterOrder fo.extendedOrder req
      · rw [if_pos hfil] at h
        simp only [Option.some.injEq, Prod.mk.injEq] at h
        obtain ⟨h1, -⟩ := h
        rw [← h1]
        exact List.mem_cons_self o rest
      · rw [if_neg hfil] at h
        exact List.mem_cons_of_mem o (ih fo.minOfBalancesOrAllowances best bal2 h)

/-! ### Claim theorems -/

/-- Claim C2: in `getFillableOrder`, whenever the maker's available
collateral entry is positive, the (maker, makerToken) ledger slot is
decremented by the pre-clip implied maker amount
`makerAmount * remainingFillableTakerAmount / takerAmount`
(`impliedMakerAmount`) — also in the branch where the order's
`remainingFillableTakerAmount` is clipped because that amount exceeds the
available collateral — never by the smaller post-clip amount. -/
theorem claimC2_preclip_decrement (makers makerTokens : List String) (bal : List ℚ)
    (order : SRAOrder) (i : ℕ) (a : ℚ)
    (hidx : findMakerIndex makers makerTokens order.order.maker order.order.makerToken = some i)
    (ha : bal[i]? = some a) (hA : 0 < a) :
    (getFillableOrder makers makerTokens bal order).map
        FillableOrderType.minOfBalancesOrAllowances =
      some (bal.set i (a - impliedMakerAmount order)) := by
  rw [getFillableOrder_eval makers makerTokens bal order i a hidx ha, if_pos hA]
  rfl

/-- Witness for C2 at a concrete clipped order: available 100, implied
maker amount 500, so the slot becomes `100 - 500` — the pre-clip decrement. -/
theorem claimC2_preclip_decrement_witness :
    (getFillableOrder ["0xm"] ["0xt"] [100] (testOrder "0xm" "0xt" 500 500 500)).map
        FillableOrderType.minOfBalancesOrAllowances =
      some ([(100 : ℚ)].set 0 (100 - impliedMakerAmount (testOrder "0xm" "0xt" 500 500 500))) :=
  claimC2_preclip_decrement ["0xm"] ["0xt"] [100] (testOrder "0xm" "0xt" 500 500 500) 0 100
    (by decide) (by decide) (by decide)

/-- Claim C5 counterexample: for an order whose (maker, makerToken) pair
occurs at no index, `makerIndex` stays `-1`, the balance lookup is
`undefined`, and the `.gt(0)` call throws a `TypeError` (modelled `none`) —
the function does **not** return normally with a zeroed order. -/
theorem claimC5_counterexample :
    getFillableOrder ["0xa"] ["0xt"] [5] (testOrder "0xb" "0xt" 1 1 1) = none := by
  decide

/-- Claim C5 (amended): when the (maker, makerToken) pair matches no index
of the `makers`/`makerTokens` arrays, `getFillableOrder` fails with a
thrown `TypeError` (modelled `none`) instead of treating the missing key as
zero collateral. -/
theorem claimC5_missing_pair_throws (makers makerTokens : List String)
    (bal : List ℚ) (order : SRAOrder)
    (h : ∀ j, j < makers.length →
      makerMatches makers makerTokens order.order.maker order.order.makerToken j = false) :
    getFillableOrder makers makerTokens bal order = none :=
  getFillableOrder_none_of_no_index makers makerTokens bal order
    (findMakerIndex_eq_none makers makerTokens _ _ h)

/-- Witness for the amended C5 at a concrete mismatching input. -/
theorem claimC5_missing_pair_throws_witness :
    getFillableOrder ["0xa", "0xc"] ["0xt", "0xt"] [7, 9] (testOrder "0xb" "0xt" 1 1 1) = none :=
  claimC5_missing_pair_throws ["0xa", "0xc"] ["0xt", "0xt"] [7, 9]
    (testOrder "0xb" "0xt" 1 1 1) (by decide)

/-- Claim C10: when a (maker, makerToken) pair occurs at several indices,
`getFillableOrder` reads and decrements the entry at the *last* matching
index, and every other entry of `minOfBalancesOrAllowances` — including the
duplicate entries of the same pair — is unchanged. -/
theorem claimC10_last_index_frame (makers makerTokens : List String) (bal : List ℚ)
    (order : SRAOrder) (i : ℕ) (fo : FillableOrderType)
    (hidx : findMakerIndex makers makerTokens order.order.maker order.order.makerToken = some i)
    (hout : getFillableOrder makers makerTokens bal order = some fo) :
    makerMatches makers makerTokens order.order.maker order.order.makerToken i = true ∧
    (∀ j, i < j →
      makerMatches makers makerTokens order.order.maker order.order.makerToken j = false) ∧
    (∀ j, j ≠ i → fo.minOfBalancesOrAllowances[j]? = bal[j]?) := by
  obtain ⟨hmi, hafter⟩ := findMakerIndex_last makers makerTokens _ _ i hidx
  refine ⟨hmi, hafter, ?_⟩
  obtain ⟨i', a, hidx', ha, hcase⟩ := getFillableOrder_balances _ _ _ _ _ hout
  rw [hidx] at hidx'
  obtain rfl : i' = i := (Option.some.inj hidx').symm
  intro j hj
  rcases hcase with ⟨-, heq⟩ | ⟨-, heq⟩
  · rw [heq]
    exact List.getElem?_set_ne (Ne.symm hj)
  · rw [heq]

/-- Witness for C10 at a concrete duplicated pair: the pair (0xm, 0xt)
occurs at indices 0 and 1; the entry at index 1 is decremented (20 → 15),
the duplicate entry at index 0 keeps its value 10. -/
theorem claimC10_last_index_frame_witness :
    makerMatches ["0xm", "0xm"] ["0xt", "0xt"] (testOrder "0xm" "0xt" 5 5 5).order.maker
      (testOrder "0xm" "0xt" 5 5 5).order.makerToken 1 = true ∧
    (∀ j, 1 < j →
      makerMatches ["0xm", "0xm"] ["0xt", "0xt"] (testOrder "0xm" "0xt" 5 5 5).order.maker
        (testOrder "0xm" "0xt" 5 5 5).order.makerToken j = false) ∧
    (∀ j, j ≠ 1 →
      (FillableOrderType.mk ⟨(testOrder "0xm" "0xt" 5 5 5).order, ⟨5⟩⟩
        [10, 15]).minOfBalancesOrAllowances[j]? = [(10 : ℚ), 20][j]?) :=
  claimC10_last_index_frame ["0xm", "0xm"] ["0xt", "0xt"] [10, 20]
    (testOrder "0xm" "0xt" 5 5 5) 1
    (FillableOrderType.mk ⟨(testOrder "0xm" "0xt" 5 5 5).order, ⟨5⟩⟩ [10, 15])
    (by decide) (by decide)

/-- Claim C4: for an input order with
`0 ≤ remainingFillableTakerAmount ≤ takerAmount` and positive integer
`makerAmount` and `takerAmount` (amounts are integers per the data model),
the order returned by `getFillableOrder` satisfies
`0 ≤ remainingFillableTakerAmount ≤ takerAmount`: the collateral-clipped
value `available * takerAmount / makerAmount` and the forced zero both stay
within these bounds. -/
theorem claimC4_remaining_bounds (makers makerTokens : List String) (bal : List ℚ)
    (order : SRAOrder) (fo : FillableOrderType)
    (hr0 : 0 ≤ order.metaData.remainingFillableTakerAmount)
    (hrt : order.metaData.remainingFillableTakerAmount ≤ order.order.takerAmount)
    (hm : 0 < order.order.makerAmount) (ht : 0 < order.order.takerAmount)
    (hmden : order.order.makerAmount.den = 1) (htden : order.order.takerAmount.den = 1)
    (h : getFillableOrder makers makerTokens bal order = some fo) :
    0 ≤ fo.extendedOrder.metaData.remainingFillableTakerAmount ∧
      fo.extendedOrder.metaData.remainingFillableTakerAmount ≤ order.order.takerAmount := by
  rcases hidx : findMakerIndex makers makerTokens order.order.maker order.order.makerToken with
    _ | i
  · rw [getFillableOrder_none_of_no_index makers makerTokens bal order hidx] at h
    cases h
  · rcases ha : bal[i]? with _ | a
    · rw [getFillableOrder_none_of_no_entry makers makerTokens bal order i hidx ha] at h
      cases h
    · rw [getFillableOrder_eval makers makerTokens bal order i a hidx ha] at h
      by_cases hA : 0 < a
      · rw [if_pos hA] at h
        have hval : fo.extendedOrder.metaData.remainingFillableTakerAmount =
            (if a < impliedMakerAmount order then
              bnDiv (a * order.order.takerAmount) order.order.makerAmount
            else order.metaData.remainingFillableTakerAmount) := by
          rw [← Option.some.inj h]
        rw [hval]
        by_cases hclip : a < impliedMakerAmount order
        · rw [if_pos hclip]
          have himp_le : impliedMakerAmount order ≤ order.order.makerAmount := by
            have hcast : (order.order.makerAmount.num : ℚ) = order.order.makerAmount :=
              den_one_intCast _ hmden
            unfold impliedMakerAmount
            nth_rewrite 2 [← hcast]
            apply bnDiv_le_int _ _ _ ht (mul_nonneg hm.le hr0)
            rw [hcast, div_le_iff₀ ht]
            exact mul_le_mul_of_nonneg_left hrt hm.le
          have haltm : a < order.order.makerAmount := lt_of_lt_of_le hclip himp_le
          constructor
          · exact bnDiv_nonneg _ _ (mul_nonneg hA.le ht.le) hm.le
          · have hcast : (order.order.takerAmount.num : ℚ) = order.order.takerAmount :=
              den_one_intCast _ htden
            nth_rewrite 2 [← hcast]
            apply bnDiv_le_int _ _ _ hm (mul_nonneg hA.le ht.le)
            rw [hcast, div_le_iff₀ hm]
            calc a * order.order.takerAmount
                ≤ order.order.makerAmount * order.order.takerAmount :=
                  mul_le_mul_of_nonneg_right haltm.le ht.le
              _ = order.order.takerAmount * order.order.makerAmount := mul_comm _ _
        · rw [if_neg hclip]
          exact ⟨hr0, hrt⟩
      · rw [if_neg hA] at h
        have hval : fo.extendedOrder.metaData.remainingFillableTakerAmount = 0 := by
          rw [← Option.some.inj h]
        rw [hval]
        exact ⟨le_refl 0, ht.le⟩

/-- Witness for C4 at a concrete clipped order: remaining 400 of
takerAmount 500, available collateral 100, clipped remaining
`100 * 500 / 500 = 100`, which lies in `[0, 500]`. -/
theorem claimC4_remaining_bounds_witness :
    0 ≤ (FillableOrderType.mk ⟨(testOrder "0xm" "0xt" 500 500 400).order, ⟨100⟩⟩
        [-300]).extendedOrder.metaData.remainingFillableTakerAmount ∧
      (FillableOrderType.mk ⟨(testOrder "0xm" "0xt" 500 500 400).order, ⟨100⟩⟩
        [-300]).extendedOrder.metaData.remainingFillableTakerAmount ≤
        (testOrder "0xm" "0xt" 500 500 400).order.takerAmount :=
  claimC4_remaining_bounds ["0xm"] ["0xt"] [100] (testOrder "0xm" "0xt" 500 500 400)
    (FillableOrderType.mk ⟨(testOrder "0xm" "0xt" 500 500 400).order, ⟨100⟩⟩ [-300])
    (by decide) (by decide) (by decide) (by decide) (by decide) (by decide) (by decide)

/-- Claim C1 counterexample: one bid-fold step over a single order (maker
collateral 100, implied maker amount 500) drives the ledger entry to
`100 - 500 = -400 < 0`, because the decrement uses the pre-clip amount. -/
theorem claimC1_counterexample :
    processOrders ["0xm"] ["0xt"] (bookRequest 1 10)
        [testOrder "0xm" "0xt" 500 500 500] [100] = some ([], [-400]) ∧
      ((-400 : ℚ) < 0) := by
  exact ⟨by decide, by decide⟩

/-- Claim C1 (amended): a clipped order decrements its ledger entry by the
pre-clip implied amount and can drive it negative; the entries stay
nonnegative exactly under the no-clipping side condition.  If every
processed order's implied maker amount fits into its available entry
(`noClipFold`), then all entries remain nonnegative, both along the
bid/ask folds of `getOrderBookAsync` (`processOrders`) and along the
best-bid/best-ask scans of `getPricesAsync` (`scanBest`). -/
theorem claimC1_ledger_nonneg_noclip :
    (∀ (makers makerTokens : List String) (req : OrderbookPriceRequest)
        (orders : List SRAOrder) (bal : List ℚ) (res : List SRAOrder) (bal2 : List ℚ),
        (∀ x ∈ bal, 0 ≤ x) → noClipFold makers makerTokens orders bal = true →
        processOrders makers makerTokens req orders bal = some (res, bal2) →
        ∀ x ∈ bal2, 0 ≤ x) ∧
    (∀ (makers makerTokens : List String) (req : OrderbookPriceRequest)
        (orders : List SRAOrder) (bal : List ℚ) (best : Option SRAOrder) (bal2 : List ℚ),
        (∀ x ∈ bal, 0 ≤ x) → noClipFold makers makerTokens orders bal = true →
        scanBest makers makerTokens req orders bal = some (best, bal2) →
        ∀ x ∈ bal2, 0 ≤ x) :=
  ⟨fun makers makerTokens req => processOrders_nonneg makers makerTokens req,
   fun makers makerTokens req => scanBest_nonneg makers makerTokens req⟩

/-- Witness for the amended C1: a fold step that consumes 50 out of 100
leaves the nonnegative ledger `[50]`. -/
theorem claimC1_ledger_nonneg_noclip_witness : ∀ x ∈ [(50 : ℚ)], 0 ≤ x :=
  claimC1_ledger_nonneg_noclip.1 ["0xm"] ["0xt"] (bookRequest 1 10)
    [testOrder "0xm" "0xt" 50 50 50] [100] [] [50]
    (by decide) (by decide) (by decide)

/-- Subsetting through pagination: every element of a page is an element of
the underlying list. -/
theorem paginate_subset {α : Type} (records : List α) (page perPage : ℕ) :
    ∀ x ∈ paginate records page perPage, x ∈ records := by
  intro x hx
  unfold paginate at hx
  exact (List.drop_sublist _ _).subset ((List.take_sublist _ _).subset hx)

/-- Claim C3 counterexample: a clipped bid (pre-fold remaining 2000,
collateral 1000) passes the filter with its updated remaining 1000, but the
emitted order still carries the pre-fold remaining 2000 — the response does
**not** contain the updated `extendedOrder` of the fillability fold. -/
theorem claimC3_counterexample :
    processOrders ["0xm"] ["0xt"] (bookRequest 1 10)
        [testOrder "0xm" "0xt" 2000 2000 2000] [1000] =
      some ([testOrder "0xm" "0xt" 2000 2000 2000], [-1000]) ∧
    (getFillableOrder ["0xm"] ["0xt"] [1000] (testOrder "0xm" "0xt" 2000 2000 2000)).map
        (fun fo => fo.extendedOrder.metaData.remainingFillableTakerAmount) = some 1000 ∧
    (testOrder "0xm" "0xt" 2000 2000 2000).metaData.remainingFillableTakerAmount = 2000 := by
  exact ⟨by decide, by decide, by decide⟩

/-- Claim C3 (amended): every order in the bids/asks of
`getOrderBookAsync`'s response, and every best bid/ask record of
`getPricesAsync`, is one of the *original* fetched orders (with its
pre-fold `remainingFillableTakerAmount`); the updated `extendedOrder`
produced by `getFillableOrder` is consulted only by the filter. -/
theorem claimC3_outputs_are_original_orders :
    (∀ (bids asks : List SRAOrder) (bal : List ℚ) (page perPage : ℕ)
        (bout aout : List SRAOrder),
        getOrderBookCore bids asks bal page perPage = some (bout, aout) →
        (∀ o ∈ bout, o ∈ bids) ∧ (∀ o ∈ aout, o ∈ asks)) ∧
    (∀ (makers makerTokens : List String) (req : OrderbookPriceRequest)
        (orders : List SRAOrder) (bal : List ℚ) (best : SRAOrder) (bal2 : List ℚ),
        scanBest makers makerTokens req orders bal = some (some best, bal2) →
        best ∈ orders) := by
  constructor
  · intro bids asks bal page perPage bout aout h
    unfold getOrderBookCore at h
    rcases hb : processOrders
        (bids.map (fun o => o.order.maker) ++ asks.map (fun o => o.order.maker))
        (bids.map (fun o => o.order.makerToken) ++ asks.map (fun o => o.order.makerToken))
        (bookRequest page perPage) bids bal with _ | ⟨resultBids, balAfter⟩
    · simp only [hb] at h
      cases h
    · simp only [hb] at h
      rcases ha : processOrders
          (bids.map (fun o => o.order.maker) ++ asks.map (fun o => o.order.maker))
          (bids.map (fun o => o.order.makerToken) ++ asks.map (fun o => o.order.makerToken))
          (bookRequest page perPage) asks balAfter with _ | ⟨resultAsks, balFinal⟩
      · simp only [ha] at h
        cases h
      · simp only [ha, Option.some.injEq, Prod.mk.injEq] at h
        obtain ⟨hbo, hao⟩ := h
        constructor
        · intro o ho
          rw [← hbo] at ho
          exact (processOrders_sublist _ _ _ _ _ _ _ hb).subset
            (paginate_subset resultBids page perPage o ho)
        · intro o ho
          rw [← hao] at ho
          exact (processOrders_sublist _ _ _ _ _ _ _ ha).subset
            (paginate_subset resultAsks page perPage o ho)
  · intro makers makerTokens req orders bal best bal2 h
    exact scanBest_mem makers makerTokens req orders bal best bal2 h

/-- Witness for the amended C3: the best bid found by the scan is the
original input order. -/
theorem claimC3_outputs_are_original_orders_witness :
    testOrder "0xm" "0xt" 2000 2000 2000 ∈ [testOrder "0xm" "0xt" 2000 2000 2000] :=
  claimC3_outputs_are_original_orders.2 ["0xm"] ["0xt"] (bookRequest 1 10)
    [testOrder "0xm" "0xt" 2000 2000 2000] [1000]
    (testOrder "0xm" "0xt" 2000 2000 2000) [-1000] (by decide)

/-- Claim C6 counterexample: takerAmount 100000, fee unit 1, so the
expected fee is 1; an order with `takerTokenFeeAmount = 2 = expected + 1`
is rejected by the fee check (`gte(expected.plus(1))`), although every
other check passes — the claim predicts acceptance at the endpoint. -/
theorem claimC6_counterexample : filterOrder (feeOrder 100000 2) feeRequest = false := by
  decide

/-- Claim C6 (amended): with a constrained fee (and the taker,
fee-recipient and threshold checks unconstrained and passing), `filterOrder`
accepts exactly the *open* interval: it returns true iff
`expected - 1 < takerTokenFeeAmount < expected + 1` with
`expected = takerAmount * takerTokenFee / 100000`; orders exactly at
`expected ± 1` are rejected. -/
theorem claimC6_fee_tolerance_open_interval (order : SRAOrder)
    (req : OrderbookPriceRequest)
    (hfee : req.takerTokenFee ≠ -1)
    (htaker : req.taker = NULL_ADDRESS)
    (hrecip : req.feeRecipient = NULL_ADDRESS)
    (hthr : req.threshold = 0)
    (hrem : 100 < order.metaData.remainingFillableTakerAmount) :
    (filterOrder order req = true ↔
      (order.order.takerAmount * (req.takerTokenFee / 100000) - 1 <
          order.order.takerTokenFeeAmount ∧
        order.order.takerTokenFeeAmount <
          order.order.takerAmount * (req.takerTokenFee / 100000) + 1)) := by
  simp only [filterOrder]
  split_ifs with h1 h2 h3 h4 h5
  · rw [false_iff]
    rintro ⟨hl, hr⟩
    rcases h1.2.2.2 with h | h
    · linarith
    · linarith
  · rw [false_iff]
    rintro ⟨hl, hr⟩
    rcases h2.2 with h | h
    · linarith
    · linarith
  · exact (h3.1 htaker).elim
  · exact (h4.1 hrecip).elim
  · rcases h5 with ⟨hc, -⟩ | hc
    · exact (hc hthr).elim
    · exact absurd hc (by linarith)
  · push_neg at h2
    obtain ⟨hl, hr⟩ := h2 hfee
    exact iff_of_true rfl ⟨by linarith, by linarith⟩

/-- Witness for the amended C6: the expected fee is 1 and the actual fee 1
lies strictly inside the open interval (0, 2), so the order is accepted. -/
theorem claimC6_fee_tolerance_open_interval_witness :
    filterOrder (feeOrder 100000 1) feeRequest = true :=
  (claimC6_fee_tolerance_open_interval (feeOrder 100000 1) feeRequest
    (by decide) (by decide) (by decide) (by decide) (by decide)).mpr
    ⟨by decide, by decide⟩

/-- Claim C8: `filterOrder` rejects every order whose
`remainingFillableTakerAmount` is ≤ 100, for every query and threshold
(the dust floor is unconditional); and with threshold 0 and the fee, taker
and fee-recipient checks passing, an order with remaining 101 is
accepted. -/
theorem claimC8_dust_floor (order : SRAOrder) (req : OrderbookPriceRequest) :
    (order.metaData.remainingFillableTakerAmount ≤ 100 → filterOrder order req = false) ∧
    (req.threshold = 0 →
      (req.takerTokenFee = -1 ∨
        (order.order.takerAmount * (req.takerTokenFee / 100000) - 1 <
            order.order.takerTokenFeeAmount ∧
          order.order.takerTokenFeeAmount <
            order.order.takerAmount * (req.takerTokenFee / 100000) + 1)) →
      (req.taker = NULL_ADDRESS ∨ req.taker = toLowerCase order.order.taker) →
      (req.feeRecipient = NULL_ADDRESS ∨ toLowerCase order.order.feeRecipient = req.feeRecipient) →
      order.metaData.remainingFillableTakerAmount = 101 →
      filterOrder order req = true) := by
  constructor
  · intro h100
    simp only [filterOrder]
    split_ifs with h1 h2 h3 h4 h5
    · rfl
    · rfl
    · rfl
    · rfl
    · rfl
    · exact absurd (Or.inr h100) h5
  · intro hthr hfee htaker hrecip h101
    simp only [filterOrder]
    split_ifs with h1 h2 h3 h4 h5
    · exfalso
      rcases hfee with hm1 | ⟨hl, hr⟩
      · exact h1.1 hm1
      · rcases h1.2.2.2 with h | h
        · linarith
        · linarith
    · exfalso
      rcases hfee with hm1 | ⟨hl, hr⟩
      · exact h2.1 hm1
      · rcases h2.2 with h | h
        · linarith
        · linarith
    · exfalso
      rcases htaker with h | h
      · exact h3.1 h
      · exact h3.2 h
    · exfalso
      rcases hrecip with h | h
      · exact h4.1 h
      · exact h4.2 h
    · exfalso
      rcases h5 with ⟨hc, -⟩ | hc
      · exact hc hthr
      · rw [h101] at hc
        exact absurd hc (by norm_num)
    · rfl

/-- Witness for C8: a dust order with remaining 100 is rejected even under
threshold 0, and an order with remaining 101 is accepted under an otherwise
unconstrained query. -/
theorem claimC8_dust_floor_witness :
    filterOrder (testOrder "0xm" "0xt" 1 1 100) (bookRequest 1 10) = false ∧
      filterOrder (testOrder "0xm" "0xt" 1 1 101) (bookRequest 1 10) = true :=
  ⟨(claimC8_dust_floor (testOrder "0xm" "0xt" 1 1 100) (bookRequest 1 10)).1 (by decide),
   (claimC8_dust_floor (testOrder "0xm" "0xt" 1 1 101) (bookRequest 1 10)).2
     (by decide) (Or.inl (by decide)) (Or.inl (by decide)) (Or.inl (by decide)) (by decide)⟩

/-- Claim C9 counterexample: with now = 0 s (`Date.now() = 0` ms), buffer
60 s and `expiry = 60 = now + buffer`, `getOrdersAsync`'s query *retains*
the order (the `MoreThanOrEqual(minExpiryTime)` bound is inclusive)
although the spec rule — and `getBatchOrdersAsync`'s partition — treats it
as expired, so the boundary order is not expired for both operations. -/
theorem claimC9_counterexample :
    ordersAsyncRetains 0 60 boundaryOrder.order.expiry = true ∧
      boundaryOrder ∈ (groupByFreshness [boundaryOrder] 0 60).2 := by
  exact ⟨by decide, by decide⟩

/-- Claim C9 (amended): `getBatchOrdersAsync` partitions by
`groupByFreshness`, whose expired set is exactly the orders with
`expiry ≤ now + buffer`; `getOrdersAsync` retains exactly the orders with
`expiry ≥ ⌊now_ms / 1000⌋ + buffer`, i.e. the fresh ones *plus* the
boundary order with `expiry = now + buffer`, which is expired for
`getBatchOrdersAsync` but retained by `getOrdersAsync`. -/
theorem claimC9_freshness_boundary :
    (∀ (orders : List SRAOrder) (now buffer : ℤ) (o : SRAOrder),
      (o ∈ (groupByFreshness orders now buffer).2 ↔
        o ∈ orders ∧ o.order.expiry ≤ now + buffer) ∧
      (o ∈ (groupByFreshness orders now buffer).1 ↔
        o ∈ orders ∧ now + buffer < o.order.expiry)) ∧
    (∀ (n : ℕ) (buffer e : ℤ),
      ordersAsyncRetains (1000 * n) buffer e = true ↔
        ((n : ℤ) + buffer < e ∨ e = (n : ℤ) + buffer)) := by
  constructor
  · intro orders now buffer o
    constructor
    · simp [groupByFreshness, List.mem_filter]
    · simp [groupByFreshness, List.mem_filter]
  · intro n buffer e
    unfold ordersAsyncRetains
    rw [Nat.mul_div_cancel_left n (by norm_num : 0 < 1000)]
    simp only [decide_eq_true_eq]
    constructor
    · intro h
      rcases lt_or_eq_of_le h with h' | h'
      · exact Or.inl h'
      · exact Or.inr h'.symm
    · rintro (h | h)
      · exact le_of_lt h
      · exact le_of_eq h.symm

/-- Claim C7 counterexample: for the clipped order with available 1,
takerAmount 1, makerAmount 3, the computed remaining is the 78-digit
decimal 0.333…3 — a non-integer, different from the truncated integer
quotient ⌊1·1/3⌋ = 0 — so the divisions are not truncating integer
division. -/
theorem claimC7_counterexample :
    (getFillableOrder ["0xm"] ["0xt"] [1] (testOrder "0xm" "0xt" 3 1 1)).map
        (fun fo => fo.extendedOrder.metaData.remainingFillableTakerAmount) =
      some (((10 : ℚ) ^ 78 - 1) / 3 / 10 ^ 78) ∧
    ¬ ((((10 : ℚ) ^ 78 - 1) / 3 / 10 ^ 78).den = 1) ∧
    ((10 : ℚ) ^ 78 - 1) / 3 / 10 ^ 78 ≠ ((⌊(1 : ℚ) * 1 / 3⌋ : ℤ) : ℚ) := by
  exact ⟨by decide, by decide, by decide⟩

/-- Claim C7 (amended): the fold's arithmetic is exact arbitrary-precision
*decimal* arithmetic: products and differences are exact rationals, and
each division is the exact quotient rounded to 78 decimal places (half-up)
rather than truncated to an integer.  In the clip branch the computed
remaining is a 78-dp decimal within half an ulp (1/(2·10⁷⁸)) of the exact
`available * takerAmount / makerAmount`, and the implied maker amount is
within half an ulp of the exact
`makerAmount * remainingFillableTakerAmount / takerAmount`.  (The expected
fee in `filterOrder` additionally passes through the JavaScript
floating-point quotient `takerTokenFee / 100000`, which is outside exact
decimal arithmetic.) -/
theorem claimC7_decimal_arithmetic (makers makerTokens : List String) (bal : List ℚ)
    (order : SRAOrder) (i : ℕ) (a : ℚ)
    (hidx : findMakerIndex makers makerTokens order.order.maker order.order.makerToken = some i)
    (ha : bal[i]? = some a) (hA : 0 < a)
    (hm : 0 < order.order.makerAmount) (ht : 0 < order.order.takerAmount)
    (hr : 0 ≤ order.metaData.remainingFillableTakerAmount)
    (hclip : a < impliedMakerAmount order) :
    ∃ fo, getFillableOrder makers makerTokens bal order = some fo ∧
      |fo.extendedOrder.metaData.remainingFillableTakerAmount -
          a * order.order.takerAmount / order.order.makerAmount| ≤ 1 / (2 * E78) ∧
      (fo.extendedOrder.metaData.remainingFillableTakerAmount * E78).den = 1 ∧
      |impliedMakerAmount order -
          order.order.makerAmount * order.metaData.remainingFillableTakerAmount /
            order.order.takerAmount| ≤ 1 / (2 * E78) := by
  refine ⟨FillableOrderType.mk
      ⟨order.order, ⟨bnDiv (a * order.order.takerAmount) order.order.makerAmount⟩⟩
      (bal.set i (a - impliedMakerAmount order)), ?_, ?_, ?_, ?_⟩
  · rw [getFillableOrder_eval makers makerTokens bal order i a hidx ha, if_pos hA,
      if_pos hclip]
  · exact abs_bnDiv_sub_le _ _ hm (mul_nonneg hA.le ht.le)
  · show (bnDiv (a * order.order.takerAmount) order.order.makerAmount * E78).den = 1
    rw [bnDiv_of_pos _ _ hm (mul_nonneg hA.le ht.le),
      div_mul_cancel₀ _ (ne_of_gt E78_pos)]
    exact Rat.den_intCast _
  · unfold impliedMakerAmount
    exact abs_bnDiv_sub_le _ _ ht (mul_nonneg hm.le hr)

/-- Witness for the amended C7 at the concrete clipped order: remaining
`0.33…3` (78 threes) is within half an ulp of `1/3` and is a 78-dp
decimal. -/
theorem claimC7_decimal_arithmetic_witness :
    ∃ fo, getFillableOrder ["0xm"] ["0xt"] [1] (testOrder "0xm" "0xt" 3 1 1) = some fo ∧
      |fo.extendedOrder.metaData.remainingFillableTakerAmount -
          1 * (testOrder "0xm" "0xt" 3 1 1).order.takerAmount /
            (testOrder "0xm" "0xt" 3 1 1).order.makerAmount| ≤ 1 / (2 * E78) ∧
      (fo.extendedOrder.metaData.remainingFillableTakerAmount * E78).den = 1 ∧
      |impliedMakerAmount (testOrder "0xm" "0xt" 3 1 1) -
          (testOrder "0xm" "0xt" 3 1 1).order.makerAmount *
            (testOrder "0xm" "0xt" 3 1 1).metaData.remainingFillableTakerAmount /
            (testOrder "0xm" "0xt" 3 1 1).order.takerAmount| ≤ 1 / (2 * E78) :=
  claimC7_decimal_arithmetic ["0xm"] ["0xt"] [1] (testOrder "0xm" "0xt" 3 1 1) 0 1
    (by decide) (by decide) (by decide) (by decide) (by decide) (by decide) (by decide)

end DivaOrderbook
